import Mathlib

/-!
Shallow embedding of the rtems rtl-host linker core (rld-files.cpp and
rld-rap.cpp) together with proofs about the natural-language specification
of the repository.  Machine integers are modelled as Nat with explicit
reduction modulo 2^32 (uint32_t) or 2^64 (size_t) where the source wraps.
-/

/-- The modulus of a 32-bit unsigned machine integer. -/
def w32 : Nat := 2 ^ 32

/-- The modulus of a 64-bit size_t. -/
def w64 : Nat := 2 ^ 64

/-- Left shift of a 32-bit value reduced modulo 2^32.  For shift counts of
32 or more the reduced result is 0, which agrees with the mathematical
value of (x <<< k) % 2^32 without computing gigantic powers. -/
def shl32 (x k : Nat) : Nat :=
  if k < 32 then (x <<< k) % w32 else 0

theorem shl32_eq (x k : Nat) : shl32 x k = (x <<< k) % w32 := by
  unfold shl32
  split
  · rfl
  · rename_i h
    have h32 : 32 ≤ k := Nat.le_of_not_lt h
    have hdvd : w32 ∣ x <<< k := by
      rw [Nat.shiftLeft_eq]
      exact Dvd.dvd.mul_left (pow_dvd_pow 2 h32) x
    exact (Nat.dvd_iff_mod_eq_zero.mp hdvd).symm

/-- The NUL character used as string-table terminator. -/
def nulc : Char := Char.ofNat 0

/-! ## rld::rap::section  (rld-rap.cpp lines 71-87, 270-305) -/

/-- rld::rap::section: a RAP section group record.  Fields are uint32_t
values kept below 2^32. -/
structure SectionRec where
  name : String
  size : Nat
  offset : Nat
  align : Nat
deriving Repr, DecidableEq

/-- Errors thrown by rap::section::operator+= . -/
inductive SecErr where
  | AlignmentMismatch
  | InvalidAlignment
deriving Repr, DecidableEq

/-- The documented round-up-by-mask formula used in
rap::section::operator+= (rld-rap.cpp lines 295-301):
mask = (1 << (align - 1)) - 1 and when offset & mask is non-zero,
offset = (offset & ~mask) + (1 << align), all in uint32 arithmetic
(align - 1 wraps for align = 0). -/
def maskRound (offset align : Nat) : Nat :=
  let mask := (shl32 1 ((align + w32 - 1) % w32) + (w32 - 1)) % w32
  if offset &&& mask ≠ 0 then
    ((offset &&& ((w32 - 1) - mask)) + shl32 1 (align % w32)) % w32
  else
    offset

/-- rld::rap::section::operator+= (rld-rap.cpp lines 277-305).  Adds one
per-object section record into an accumulating group record.  Throws
AlignmentMismatch when a non-zero accumulated align differs from the
incoming align and InvalidAlignment when size has accumulated while the
align is still zero. -/
def secAdd (g : SectionRec) (s : SectionRec) : Except SecErr SectionRec :=
  if s.size = 0 then .ok g
  else
    if g.align ≠ 0 ∧ g.align ≠ s.align then .error .AlignmentMismatch
    else
      let align := if g.align = 0 then s.align else g.align
      if g.size ≠ 0 ∧ align = 0 then .error .InvalidAlignment
      else
        let size := (g.size + s.size) % w32
        let offset := maskRound ((s.offset + s.size) % w32) align
        .ok { name := g.name, size := size, offset := offset, align := align }

/-- A zeroed group record as set up at the start of image::layout
(rld-rap.cpp lines 496-501). -/
def zeroSec (n : String) : SectionRec :=
  { name := n, size := 0, offset := 0, align := 0 }

/-- Folding two per-object records into an initially zeroed group:
g += s1; g += s2 (the operation named in claim C4). -/
def secFold2 (n : String) (s1 s2 : SectionRec) : Except SecErr SectionRec := do
  let g1 ← secAdd (zeroSec n) s1
  secAdd g1 s2

theorem secAdd_size_zero (g s : SectionRec) (hs : s.size = 0) :
    secAdd g s = .ok g := by
  unfold secAdd
  simp [hs]

theorem secAdd_zero_nonzero (n : String) (s : SectionRec) (hs : s.size ≠ 0) :
    secAdd (zeroSec n) s =
      .ok { name := n, size := s.size % w32,
            offset := maskRound ((s.offset + s.size) % w32) s.align,
            align := s.align } := by
  unfold secAdd zeroSec
  simp [hs]

theorem secAdd_nonzero_same (nm : String) (gs go ga : Nat) (s : SectionRec)
    (hs : s.size ≠ 0) (hga : ga ≠ 0) (heq : ga = s.align) :
    secAdd ⟨nm, gs, go, ga⟩ s =
      .ok { name := nm, size := (gs + s.size) % w32,
            offset := maskRound ((s.offset + s.size) % w32) ga,
            align := ga } := by
  unfold secAdd
  simp [hs, hga, heq]
  exact fun _ => heq ▸ hga

theorem secAdd_mismatch (nm : String) (gs go ga : Nat) (s : SectionRec)
    (hs : s.size ≠ 0) (hga : ga ≠ 0) (hne : ga ≠ s.align) :
    secAdd ⟨nm, gs, go, ga⟩ s = .error .AlignmentMismatch := by
  unfold secAdd
  simp [hs, hga, hne]

/-- Claim C4 counterexample: with equal aligns but s2.size = 0 the second
addition is a no-op (rld-rap.cpp line 280 guards on sec.size), so the
folded offset stays at the value derived from s1, not at the rounded
s2.offset + s2.size the claim demands.  Here the fold of
s1 = (size 4, offset 0, align 1) and s2 = (size 0, offset 100, align 1)
yields offset 4 while the claim predicts 100. -/
theorem c4_fold_cex :
    secFold2 ".text" { name := ".text", size := 4, offset := 0, align := 1 }
        { name := ".text", size := 0, offset := 100, align := 1 } =
      .ok { name := ".text", size := 4, offset := 4, align := 1 } ∧
    maskRound ((100 + 0) % w32) 1 = 100 ∧
    (4 : Nat) ≠ 100 := by
  refine ⟨rfl, by decide, by decide⟩

/-- Claim C4 (amended): folding two per-object records with equal NON-ZERO
align into a zeroed group gives size = s1.size + s2.size (mod 2^32) and,
PROVIDED s2.size is non-zero, offset = maskRound (s2.offset + s2.size);
and two records with non-zero sizes and differing aligns where the first
align is non-zero fail with AlignmentMismatch (a zero first align is
silently replaced, rld-rap.cpp lines 282-283, so no mismatch is reported
then). -/
theorem c4_fold_amended (s1 s2 t1 t2 : SectionRec) (n m : String)
    (ha : s1.align = s2.align) (hnz : s1.align ≠ 0) (h2 : s2.size ≠ 0)
    (ht1 : t1.size ≠ 0) (ht2 : t2.size ≠ 0)
    (htn : t1.align ≠ 0) (htd : t1.align ≠ t2.align) :
    secFold2 n s1 s2 =
      .ok { name := n, size := (s1.size + s2.size) % w32,
            offset := maskRound ((s2.offset + s2.size) % w32) s1.align,
            align := s1.align } ∧
    secFold2 m t1 t2 = .error .AlignmentMismatch := by
  constructor
  · by_cases h1 : s1.size = 0
    · rw [secFold2, secAdd_size_zero (zeroSec n) s1 h1]
      show secAdd (zeroSec n) s2 = _
      rw [secAdd_zero_nonzero n s2 h2, h1, ha]
      simp
    · rw [secFold2, secAdd_zero_nonzero n s1 h1]
      show secAdd ⟨n, s1.size % w32,
        maskRound ((s1.offset + s1.size) % w32) s1.align, s1.align⟩ s2 = _
      rw [secAdd_nonzero_same n (s1.size % w32)
        (maskRound ((s1.offset + s1.size) % w32) s1.align) s1.align s2 h2 hnz ha]
      simp [Nat.mod_add_mod]
  · rw [secFold2, secAdd_zero_nonzero m t1 ht1]
    show secAdd ⟨m, t1.size % w32,
      maskRound ((t1.offset + t1.size) % w32) t1.align, t1.align⟩ t2 = _
    exact secAdd_mismatch m (t1.size % w32)
      (maskRound ((t1.offset + t1.size) % w32) t1.align) t1.align t2 ht2 htn htd

/-! ## rld::files::file  (rld-files.cpp lines 146-295) -/

/-- rld::files::file: names a physical input (archive name, object name,
offset of the object within the archive and its size). -/
structure FileRec where
  aname : List Char
  oname : List Char
  offset : Nat
  size : Nat
deriving Repr, DecidableEq

/-- C++ integral promotion of operator~ applied to a bool: the bool is
promoted to int (0 or 1) and complemented bitwise, giving -1 or -2. -/
def bitnotBool (b : Bool) : Int := -(if b then (1 : Int) else 0) - 1

/-- rld::files::file::is_valid (rld-files.cpp lines 223-227).  The source
reads: return not aname_.empty() or ~oname_.empty() — with a BITWISE
complement on the second operand. -/
def file_is_valid (f : FileRec) : Bool :=
  (!f.aname.isEmpty) || (bitnotBool f.oname.isEmpty != 0)

/-- Modelled from the spec: the intended validity check, at least one of
the two names is non-empty (spec section 3, File invariants). -/
def file_is_valid_spec (f : FileRec) : Bool :=
  (!f.aname.isEmpty) || (!f.oname.isEmpty)

/-- The error raised by the object/archive constructors on an invalid
name (rld-files.cpp lines 825-839: rld_error_at name is empty). -/
inductive CtorErr where
  | NameInvalid
deriving Repr, DecidableEq

/-- rld::files::object::object (rld-files.cpp lines 825-839): constructing
an object from a File checks file_is_valid and raises NameInvalid when it
fails. -/
def object_ctor (f : FileRec) : Except CtorErr FileRec :=
  if file_is_valid f then .ok f else .error .NameInvalid

/-- Claim C7 is wrong about the code: is_valid uses a bitwise complement
of a bool (rld-files.cpp line 226), whose promoted value -1 or -2 is never
zero, so is_valid returns true for EVERY file, including one with both
names empty, and the object constructor accepts the all-empty File instead
of failing with NameInvalid.  The spec itself flags this as a typo for
logical NOT (spec section 9). -/
theorem c7_is_valid_bug :
    file_is_valid { aname := [], oname := [], offset := 0, size := 0 } = true ∧
    file_is_valid_spec { aname := [], oname := [], offset := 0, size := 0 } = false ∧
    object_ctor { aname := [], oname := [], offset := 0, size := 0 } =
      .ok { aname := [], oname := [], offset := 0, size := 0 } ∧
    (∀ f : FileRec, file_is_valid f = true) := by
  refine ⟨rfl, rfl, rfl, ?_⟩
  intro f
  unfold file_is_valid bitnotBool
  cases f.oname.isEmpty <;> simp

/-! ## rld::files::path_join  (rld-files.cpp lines 99-110) -/

/-- The platform path separator used by rld-files.cpp on POSIX. -/
def pathSep : Char := '/'

/-- rld::files::path_join (rld-files.cpp lines 99-110).  The source reads
path_[path_.size () - 1] and file_[0] unconditionally; for the embedding
these two accesses are modelled with getLastD/headD whose default is only
reachable on inputs where the source indexing is out of bounds. -/
def path_join (p f : List Char) : List Char :=
  if p.getLastD ' ' ≠ pathSep ∧ f.headD ' ' ≠ pathSep then p ++ pathSep :: f
  else if p.getLastD ' ' = pathSep ∧ f.headD ' ' = pathSep then p ++ f.tail
  else p ++ f

/-- The two string indices path_join reads unconditionally are in bounds:
index path.size() - 1 (computed in wrapping size_t arithmetic) into the
path and index 0 into the file. -/
def pathJoinInBounds (p f : List Char) : Prop :=
  (p.length + (w64 - 1)) % w64 < p.length ∧ 0 < f.length

instance (p f : List Char) : Decidable (pathJoinInBounds p f) := by
  unfold pathJoinInBounds
  infer_instance

/-- The length of the run of separators ending the string. -/
def trailSepRun (p : List Char) : Nat :=
  (p.reverse.takeWhile (fun c => c == pathSep)).length

/-- The length of the run of separators starting the string. -/
def leadSepRun (f : List Char) : Nat :=
  (f.takeWhile (fun c => c == pathSep)).length

/-- The join of two strings with exactly one path separator at the
junction: everything of p up to its trailing separator run, one
separator, then everything of f past its leading separator run. -/
def oneSepJoin (p f : List Char) : List Char :=
  (p.reverse.dropWhile (fun c => c == pathSep)).reverse
    ++ pathSep :: f.dropWhile (fun c => c == pathSep)

/-- Claim C10 counterexample: joining the non-empty strings "a" and "//b"
returns "a//b" — two separators stand at the junction, because the code
only tests the single boundary character of each argument (rld-files.cpp
lines 102-109), so the result does not join the strings with exactly one
separator at the junction. -/
theorem c10_path_join_cex :
    path_join [ 'a' ] [ '/', '/', 'b' ] = [ 'a', '/', '/', 'b' ] ∧
    oneSepJoin [ 'a' ] [ '/', '/', 'b' ] = [ 'a', '/', 'b' ] ∧
    path_join [ 'a' ] [ '/', '/', 'b' ] ≠ oneSepJoin [ 'a' ] [ '/', '/', 'b' ] := by
  refine ⟨by decide, by decide, by decide⟩

theorem takeWhile_len_zero_dropWhile {α : Type} (p : α → Bool) (l : List α)
    (h : (l.takeWhile p).length = 0) : l.dropWhile p = l := by
  cases l with
  | nil => rfl
  | cons b t =>
    by_cases hb : p b
    · rw [List.takeWhile_cons, if_pos hb] at h
      simp at h
    · simp [List.dropWhile_cons, hb]

theorem trailSepRun_concat_sep (p' : List Char) :
    trailSepRun (p' ++ [pathSep]) =
      1 + (p'.reverse.takeWhile (fun c => c == pathSep)).length := by
  unfold trailSepRun
  simp [List.takeWhile_cons]
  omega

theorem leadSepRun_cons_sep (f' : List Char) :
    leadSepRun (pathSep :: f') =
      1 + (f'.takeWhile (fun c => c == pathSep)).length := by
  unfold leadSepRun
  simp [List.takeWhile_cons]
  omega

/-- Claim C10 (amended): path_join reads the last character of the path
and the first character of the file unconditionally, so both arguments
must be non-empty: when either is empty one of those two indexings is out
of bounds, and for non-empty arguments both are in bounds.  The result
joins the two strings with exactly one separator at the junction PROVIDED
neither argument carries a doubled separator at the boundary (the source
only examines one character per side, rld-files.cpp lines 102-109). -/
theorem c10_path_join_amended (p f q g : List Char)
    (hqg : q = [] ∨ g = [])
    (hp : p ≠ []) (hf : f ≠ [])
    (hp1 : trailSepRun p ≤ 1) (hf1 : leadSepRun f ≤ 1) :
    ¬ pathJoinInBounds q g ∧
    pathJoinInBounds p f ∧
    path_join p f = oneSepJoin p f := by
  refine ⟨?_, ⟨?_, ?_⟩, ?_⟩
  · rcases hqg with h | h
    · subst h
      intro hin
      exact absurd hin.1 (by simp)
    · subst h
      intro hin
      exact absurd hin.2 (by simp)
  · have hlen : 1 ≤ p.length := by
      cases p with
      | nil => exact absurd rfl hp
      | cons a t => simp
    have hsum : p.length + (w64 - 1) = (p.length - 1) + w64 := by
      have : 1 ≤ w64 := by norm_num [w64]
      omega
    rw [hsum, Nat.add_mod_right]
    calc (p.length - 1) % w64 ≤ p.length - 1 := Nat.mod_le _ _
      _ < p.length := by omega
  · cases f with
    | nil => exact absurd rfl hf
    | cons a t => simp
  · obtain ⟨p', d, rfl⟩ : ∃ p' d, p = p' ++ [d] := by
      rcases List.eq_nil_or_concat p with h | ⟨L, b, h⟩
      · exact absurd h hp
      · exact ⟨L, b, by simpa using h⟩
    obtain ⟨c, f', rfl⟩ : ∃ c f', f = c :: f' := by
      cases f with
      | nil => exact absurd rfl hf
      | cons c f' => exact ⟨c, f', rfl⟩
    have hlast : (p' ++ [d]).getLastD ' ' = d := by
      simp [List.getLastD_concat]
    have hrev : (p' ++ [d]).reverse = d :: p'.reverse := by
      simp
    by_cases hd : d = pathSep <;> by_cases hc : c = pathSep
    · -- both boundary characters are separators
      subst hd
      subst hc
      rw [trailSepRun_concat_sep] at hp1
      rw [leadSepRun_cons_sep] at hf1
      have hdrop : p'.reverse.dropWhile (fun x => x == pathSep) = p'.reverse :=
        takeWhile_len_zero_dropWhile _ _ (by omega)
      have hdrop2 : f'.dropWhile (fun x => x == pathSep) = f' :=
        takeWhile_len_zero_dropWhile _ _ (by omega)
      have e1 : path_join (p' ++ [pathSep]) (pathSep :: f') =
          p' ++ pathSep :: f' := by
        unfold path_join
        rw [hlast]
        simp
      have e2 : oneSepJoin (p' ++ [pathSep]) (pathSep :: f') =
          p' ++ pathSep :: f' := by
        unfold oneSepJoin
        rw [hrev]
        simp [List.dropWhile_cons, hdrop, hdrop2]
      rw [e1, e2]
    · -- path ends with a separator, file does not start with one
      subst hd
      rw [trailSepRun_concat_sep] at hp1
      have hdrop : p'.reverse.dropWhile (fun x => x == pathSep) = p'.reverse :=
        takeWhile_len_zero_dropWhile _ _ (by omega)
      have e1 : path_join (p' ++ [pathSep]) (c :: f') =
          (p' ++ [pathSep]) ++ c :: f' := by
        unfold path_join
        rw [hlast]
        simp [hc]
      have e2 : oneSepJoin (p' ++ [pathSep]) (c :: f') =
          p' ++ pathSep :: c :: f' := by
        unfold oneSepJoin
        rw [hrev]
        simp [List.dropWhile_cons, hdrop, hc]
      rw [e1, e2]
      simp
    · -- file starts with a separator, path does not end with one
      subst hc
      rw [leadSepRun_cons_sep] at hf1
      have hdrop2 : f'.dropWhile (fun x => x == pathSep) = f' :=
        takeWhile_len_zero_dropWhile _ _ (by omega)
      have hdrev : (p' ++ [d]).reverse.dropWhile (fun x => x == pathSep) =
          (p' ++ [d]).reverse := by
        rw [hrev, List.dropWhile_cons]
        simp [hd]
      have e1 : path_join (p' ++ [d]) (pathSep :: f') =
          (p' ++ [d]) ++ pathSep :: f' := by
        unfold path_join
        rw [hlast]
        simp [hd]
      have e2 : oneSepJoin (p' ++ [d]) (pathSep :: f') =
          (p' ++ [d]) ++ pathSep :: f' := by
        unfold oneSepJoin
        rw [hdrev]
        simp [List.dropWhile_cons, hdrop2]
      rw [e1, e2]
    · -- neither boundary character is a separator
      have hdrev : (p' ++ [d]).reverse.dropWhile (fun x => x == pathSep) =
          (p' ++ [d]).reverse := by
        rw [hrev, List.dropWhile_cons]
        simp [hd]
      have e1 : path_join (p' ++ [d]) (c :: f') =
          (p' ++ [d]) ++ pathSep :: c :: f' := by
        unfold path_join
        rw [hlast]
        simp [hd, hc]
      have e2 : oneSepJoin (p' ++ [d]) (c :: f') =
          (p' ++ [d]) ++ pathSep :: c :: f' := by
        unfold oneSepJoin
        rw [hdrev]
        simp [List.dropWhile_cons, hc]
      rw [e1, e2]

/-- Concrete instantiation of the amended claim C4. -/
theorem c4_fold_witness :
    secFold2 ".text" { name := ".text", size := 4, offset := 0, align := 3 }
        { name := ".text", size := 5, offset := 2, align := 3 } =
      .ok { name := ".text", size := 9, offset := 12, align := 3 } ∧
    secFold2 ".data" { name := ".data", size := 4, offset := 0, align := 2 }
        { name := ".data", size := 5, offset := 0, align := 3 } =
      .error .AlignmentMismatch := by
  have h := c4_fold_amended
    { name := ".text", size := 4, offset := 0, align := 3 }
    { name := ".text", size := 5, offset := 2, align := 3 }
    { name := ".data", size := 4, offset := 0, align := 2 }
    { name := ".data", size := 5, offset := 0, align := 3 }
    ".text" ".data" rfl (by decide) (by decide) (by decide) (by decide)
    (by decide) (by decide)
  refine ⟨?_, h.2⟩
  rw [h.1]
  rfl

/-- Concrete instantiation of the amended claim C10. -/
theorem c10_path_join_witness :
    ¬ pathJoinInBounds [] [ 'b' ] ∧
    pathJoinInBounds [ 'a' ] [ '/', 'b' ] ∧
    path_join [ 'a' ] [ '/', 'b' ] = oneSepJoin [ 'a' ] [ '/', 'b' ] := by
  have h := c10_path_join_amended [ 'a' ] [ '/', 'b' ] [] [ 'b' ]
    (Or.inl rfl) (by decide) (by decide) (by decide) (by decide)
  exact h

/-! ## rld::files::image open and close  (rld-files.cpp lines 297-378) -/

/-- The reference-counting state of an rld::files::image: the reference
count (references_) and whether the file descriptor is open (fd_ >= 0). -/
structure ImageSt where
  references : Nat
  fdOpen : Bool
deriving Repr, DecidableEq

/-- The OS syscalls image::open and image::close can issue. -/
inductive Sys where
  | osOpen
  | osClose
deriving Repr, DecidableEq

/-- rld::files::image::open (rld-files.cpp lines 337-360): when fd_ < 0
the OS open syscall runs (modelled as succeeding), then the reference
count is incremented. -/
def image_open (s : ImageSt) : ImageSt × List Sys :=
  if s.fdOpen then ({ s with references := s.references + 1 }, [])
  else ({ references := s.references + 1, fdOpen := true }, [Sys.osOpen])

/-- rld::files::image::close (rld-files.cpp lines 362-378): only acts
when the reference count is positive; decrements it and, when it reaches
zero, issues the OS close syscall and resets fd_ to -1. -/
def image_close (s : ImageSt) : ImageSt × List Sys :=
  if 0 < s.references then
    if s.references - 1 = 0 then
      ({ references := 0, fdOpen := false }, [Sys.osClose])
    else
      ({ s with references := s.references - 1 }, [])
  else (s, [])

/-- An open or close call on the image. -/
inductive ImgOp where
  | op
  | cl
deriving Repr, DecidableEq

/-- One call on the image. -/
def image_step (s : ImageSt) : ImgOp → ImageSt × List Sys
  | ImgOp.op => image_open s
  | ImgOp.cl => image_close s

/-- Run a sequence of open/close calls, collecting issued syscalls. -/
def image_run (s : ImageSt) : List ImgOp → ImageSt × List Sys
  | [] => (s, [])
  | o :: rest =>
    ((image_run (image_step s o).1 rest).1,
     (image_step s o).2 ++ (image_run (image_step s o).1 rest).2)

/-- Image state as constructed (references_ 0, fd_ -1),
rld-files.cpp lines 297-320. -/
def imageInit : ImageSt := { references := 0, fdOpen := false }

/-- The claimed invariant: fd >= 0 iff refcount > 0. -/
def imageInv (s : ImageSt) : Prop := s.fdOpen = true ↔ 0 < s.references

/-- Number of 0-to-1 refcount transitions along a run. -/
def trans01 (s : ImageSt) : List ImgOp → Nat
  | [] => 0
  | o :: rest =>
    (if o = ImgOp.op ∧ s.references = 0 then 1 else 0) +
      trans01 (image_step s o).1 rest

/-- Number of 1-to-0 refcount transitions along a run. -/
def trans10 (s : ImageSt) : List ImgOp → Nat
  | [] => 0
  | o :: rest =>
    (if o = ImgOp.cl ∧ s.references = 1 then 1 else 0) +
      trans10 (image_step s o).1 rest

theorem image_run_spec (ops : List ImgOp) : ∀ s : ImageSt, imageInv s →
    imageInv (image_run s ops).1 ∧
    (image_run s ops).2.count Sys.osOpen = trans01 s ops ∧
    (image_run s ops).2.count Sys.osClose = trans10 s ops := by
  induction ops with
  | nil =>
    intro s h
    exact ⟨h, rfl, rfl⟩
  | cons o rest ih =>
    intro s h
    have hstep : imageInv (image_step s o).1 ∧
        ((image_step s o).2.count Sys.osOpen =
          if o = ImgOp.op ∧ s.references = 0 then 1 else 0) ∧
        ((image_step s o).2.count Sys.osClose =
          if o = ImgOp.cl ∧ s.references = 1 then 1 else 0) := by
      cases o with
      | op =>
        by_cases hf : s.fdOpen
        · have hr : 0 < s.references := h.mp hf
          have hr0 : s.references ≠ 0 := by omega
          refine ⟨?_, ?_, ?_⟩ <;>
            simp [image_step, image_open, hf, imageInv, hr0]
        · have hr : s.references = 0 := by
            by_contra hne
            exact hf (h.mpr (Nat.pos_of_ne_zero hne))
          refine ⟨?_, ?_, ?_⟩ <;>
            simp [image_step, image_open, hf, imageInv, hr]
      | cl =>
        by_cases hz : 0 < s.references
        · by_cases h1 : s.references - 1 = 0
          · have : s.references = 1 := by omega
            refine ⟨?_, ?_, ?_⟩ <;>
              simp [image_step, image_close, hz, h1, imageInv, this]
          · have hft : s.fdOpen = true := h.mpr hz
            have hne1 : s.references ≠ 1 := by omega
            refine ⟨?_, ?_, ?_⟩ <;>
              simp [image_step, image_close, hz, h1, imageInv, hft, hne1] <;>
              omega
        · have hr : s.references = 0 := by omega
          have hff : s.fdOpen = false := by
            simp [imageInv, hr] at h
            exact h
          refine ⟨?_, ?_, ?_⟩ <;>
            simp [image_step, image_close, hz, imageInv, hr, hff]
    have hrec := ih (image_step s o).1 hstep.1
    refine ⟨hrec.1, ?_, ?_⟩
    · show ((image_step s o).2 ++ (image_run (image_step s o).1 rest).2).count
        Sys.osOpen = _
      rw [List.count_append, hstep.2.1, hrec.2.1]
      rfl
    · show ((image_step s o).2 ++ (image_run (image_step s o).1 rest).2).count
        Sys.osClose = _
      rw [List.count_append, hstep.2.2, hrec.2.2]
      rfl

/-- Claim C5: starting from a fresh image, after any sequence of open and
close calls fd >= 0 holds iff the reference count is positive (and this
holds after every prefix, each prefix being itself such a sequence); the
OS open syscall is issued exactly once per 0-to-1 refcount transition and
the OS close syscall exactly once per 1-to-0 transition; and close on an
image with refcount 0 returns the state unchanged with no syscall. -/
theorem c5_refcount_inv (ops : List ImgOp) (t : ImageSt)
    (ht : t.references = 0) :
    imageInv (image_run imageInit ops).1 ∧
    (image_run imageInit ops).2.count Sys.osOpen = trans01 imageInit ops ∧
    (image_run imageInit ops).2.count Sys.osClose = trans10 imageInit ops ∧
    image_close t = (t, []) := by
  have h := image_run_spec ops imageInit (by simp [imageInv, imageInit])
  refine ⟨h.1, h.2.1, h.2.2, ?_⟩
  unfold image_close
  rw [ht]
  simp

/-- Concrete instantiation of claim C5: two opens followed by three
closes issue exactly one OS open and one OS close, and the extra close is
a no-op. -/
theorem c5_refcount_witness :
    imageInv (image_run imageInit
      [ImgOp.op, ImgOp.op, ImgOp.cl, ImgOp.cl, ImgOp.cl]).1 ∧
    (image_run imageInit
      [ImgOp.op, ImgOp.op, ImgOp.cl, ImgOp.cl, ImgOp.cl]).2.count Sys.osOpen =
      trans01 imageInit [ImgOp.op, ImgOp.op, ImgOp.cl, ImgOp.cl, ImgOp.cl] ∧
    (image_run imageInit
      [ImgOp.op, ImgOp.op, ImgOp.cl, ImgOp.cl, ImgOp.cl]).2.count Sys.osClose =
      trans10 imageInit [ImgOp.op, ImgOp.op, ImgOp.cl, ImgOp.cl, ImgOp.cl] ∧
    image_close imageInit = (imageInit, []) :=
  c5_refcount_inv [ImgOp.op, ImgOp.op, ImgOp.cl, ImgOp.cl, ImgOp.cl]
    imageInit rfl

/-! ## rld::files::copy_file  (rld-files.cpp lines 467-509) -/

/-- The copy buffer size: 8 KiB (COPY_FILE_BUFFER_SIZE). -/
def COPY_FILE_BUFFER_SIZE : Nat := 8 * 1024

/-- The errors copy_file can raise. -/
inductive CopyErr where
  | InputTooShort
  | OutputTruncated
deriving Repr, DecidableEq

/-- The loop of rld::files::copy_file (rld-files.cpp lines 475-499).
inp is the remaining readable input (a read of l bytes returns
min l inp.length bytes, 0 exactly at end of file); wcaps is a per
iteration oracle bounding how many bytes the write syscall accepts (an
exhausted oracle means full writes); the result is the list of bytes
written out. -/
def copyLoop (inp : List Nat) (wcaps : List Nat) (size : Nat) :
    Except CopyErr (List Nat) :=
  if hsz : size = 0 then .ok []
  else
    let l := min size COPY_FILE_BUFFER_SIZE
    let chunk := inp.take l
    let r := chunk.length
    if hr : r = 0 then .error .InputTooShort
    else
      let cap := wcaps.headD r
      let w := min cap r
      if w ≠ r then .error .OutputTruncated
      else
        (copyLoop (inp.drop r) wcaps.tail (size - r)).map (chunk ++ ·)
termination_by size
decreasing_by
  have h1 : 0 < (List.take (min size COPY_FILE_BUFFER_SIZE) inp).length :=
    Nat.pos_of_ne_zero hr
  omega

/-- rld::files::copy_file (rld-files.cpp lines 467-509): allocates the
8 KiB buffer, runs the loop, and releases the buffer both on the normal
exit (line 508) and in the catch-all handler before rethrowing
(line 503).  The boolean records that the buffer was released. -/
def copy_file (inp : List Nat) (wcaps : List Nat) (size : Nat) :
    Except CopyErr (List Nat) × Bool :=
  match copyLoop inp wcaps size with
  | .ok out => (.ok out, true)
  | .error e => (.error e, true)

theorem copyLoop_short : ∀ n (a : List Nat), a.length < n →
    copyLoop a [] n = .error .InputTooShort := by
  intro n
  induction n using Nat.strong_induction_on with
  | _ n ih =>
    intro a ha
    have hn : ¬ n = 0 := by omega
    rw [copyLoop]
    rw [dif_neg hn]
    by_cases h0 : (a.take (min n COPY_FILE_BUFFER_SIZE)).length = 0
    · rw [dif_pos h0]
    · rw [dif_neg h0]
      have hr1 : 0 < (a.take (min n COPY_FILE_BUFFER_SIZE)).length :=
        Nat.pos_of_ne_zero h0
      have hrle : (a.take (min n COPY_FILE_BUFFER_SIZE)).length ≤ a.length := by
        simp [List.length_take]
      rw [if_neg (by simp)]
      have hlt : (a.drop ((a.take (min n COPY_FILE_BUFFER_SIZE)).length)).length <
          n - (a.take (min n COPY_FILE_BUFFER_SIZE)).length := by
        simp [List.length_drop]
        omega
      have hns : n - (a.take (min n COPY_FILE_BUFFER_SIZE)).length < n := by
        omega
      rw [List.tail_nil, ih _ hns _ hlt]
      rfl

theorem copyLoop_ok : ∀ m (b : List Nat), m ≤ b.length →
    copyLoop b [] m = .ok (b.take m) := by
  intro m
  induction m using Nat.strong_induction_on with
  | _ m ih =>
    intro b hb
    by_cases hm : m = 0
    · subst hm
      rw [copyLoop]
      simp
    · rw [copyLoop]
      rw [dif_neg hm]
      have hbuf : 0 < COPY_FILE_BUFFER_SIZE := by norm_num [COPY_FILE_BUFFER_SIZE]
      have hr : (b.take (min m COPY_FILE_BUFFER_SIZE)).length =
          min m COPY_FILE_BUFFER_SIZE := by
        simp [List.length_take]
        omega
      have hr1 : ¬ (b.take (min m COPY_FILE_BUFFER_SIZE)).length = 0 := by
        rw [hr]
        have : 0 < m := Nat.pos_of_ne_zero hm
        omega
      rw [dif_neg hr1]
      rw [if_neg (by simp)]
      have hrm : (b.take (min m COPY_FILE_BUFFER_SIZE)).length ≤ m := by
        rw [hr]
        omega
      have hlt : m - (b.take (min m COPY_FILE_BUFFER_SIZE)).length < m := by
        have : 0 < (b.take (min m COPY_FILE_BUFFER_SIZE)).length :=
          Nat.pos_of_ne_zero hr1
        omega
      have hrec : m - (b.take (min m COPY_FILE_BUFFER_SIZE)).length ≤
          (b.drop ((b.take (min m COPY_FILE_BUFFER_SIZE)).length)).length := by
        rw [List.length_drop, hr]
        omega
      rw [List.tail_nil, ih _ hlt _ hrec]
      rw [hr]
      simp only [Except.map]
      congr 1
      rw [← List.take_add]
      congr 1
      omega

theorem copyLoop_trunc (c : List Nat) (k cap : Nat) (rest : List Nat)
    (hk : 0 < k) (hc : 0 < c.length)
    (hcap : cap < min (min k COPY_FILE_BUFFER_SIZE) c.length) :
    copyLoop c (cap :: rest) k = .error .OutputTruncated := by
  rw [copyLoop]
  rw [dif_neg (by omega)]
  have hr : (c.take (min k COPY_FILE_BUFFER_SIZE)).length =
      min (min k COPY_FILE_BUFFER_SIZE) c.length := by
    simp [List.length_take]
  have hbuf : 0 < COPY_FILE_BUFFER_SIZE := by norm_num [COPY_FILE_BUFFER_SIZE]
  have hr1 : ¬ (c.take (min k COPY_FILE_BUFFER_SIZE)).length = 0 := by
    rw [hr]
    omega
  rw [dif_neg hr1]
  rw [if_pos]
  show ¬ min ((cap :: rest).headD _) _ = _
  simp only [List.headD_cons]
  rw [hr]
  omega

/-- Claim C8: copy_file fails with InputTooShort when the input hits end
of file before size bytes are copied, fails with OutputTruncated when a
write accepts fewer bytes than the read returned, copies through a
buffer of 8 KiB (each read requests at most COPY_FILE_BUFFER_SIZE =
8 * 1024 bytes and a full-length input is copied exactly), and the
buffer is released on the success path and on every failure path. -/
theorem c8_copy_file_props
    (a : List Nat) (n : Nat) (ha : a.length < n)
    (b : List Nat) (m : Nat) (hb : m ≤ b.length)
    (c : List Nat) (k cap : Nat) (rest : List Nat)
    (hk : 0 < k) (hc : 0 < c.length)
    (hcap : cap < min (min k COPY_FILE_BUFFER_SIZE) c.length) :
    COPY_FILE_BUFFER_SIZE = 8 * 1024 ∧
    copy_file a [] n = (.error .InputTooShort, true) ∧
    copy_file b [] m = (.ok (b.take m), true) ∧
    copy_file c (cap :: rest) k = (.error .OutputTruncated, true) ∧
    (∀ (i w : List Nat) (s : Nat), (copy_file i w s).2 = true) := by
  refine ⟨rfl, ?_, ?_, ?_, ?_⟩
  · unfold copy_file
    rw [copyLoop_short n a ha]
  · unfold copy_file
    rw [copyLoop_ok m b hb]
  · unfold copy_file
    rw [copyLoop_trunc c k cap rest hk hc hcap]
  · intro i w s
    unfold copy_file
    cases copyLoop i w s <;> rfl

/-- Concrete instantiation of claim C8. -/
theorem c8_copy_file_witness :
    COPY_FILE_BUFFER_SIZE = 8 * 1024 ∧
    copy_file [1, 2, 3] [] 5 = (.error .InputTooShort, true) ∧
    copy_file [1, 2, 3, 4, 5, 6] [] 5 = (.ok [1, 2, 3, 4, 5], true) ∧
    copy_file [1, 2, 3, 4, 5, 6] [3] 5 = (.error .OutputTruncated, true) ∧
    (∀ (i w : List Nat) (s : Nat), (copy_file i w s).2 = true) := by
  have h := c8_copy_file_props [1, 2, 3] 5 (by decide)
    [1, 2, 3, 4, 5, 6] 5 (by decide)
    [1, 2, 3, 4, 5, 6] 5 3 [] (by decide) (by decide) (by decide)
  refine ⟨h.1, h.2.1, ?_, h.2.2.2.1, h.2.2.2.2⟩
  rw [h.2.2.1]
  rfl

/-! ## rld::files::archive::create  (rld-files.cpp lines 746-823) -/

/-- The ar header name field width (rld_archive_fname_size). -/
def rld_archive_fname_size : Nat := 16

/-- The newline character terminating extended names. -/
def nlc : Char := Char.ofNat 10

/-- The GNU extended-file-names payload built by archive::create
(rld-files.cpp lines 760-768): the concatenation of every overlong member
basename followed by a newline, in member order. -/
def extendedFileNames (names : List (List Char)) : List Char :=
  names.foldl
    (fun acc n =>
      if n.length > rld_archive_fname_size then acc ++ n ++ [nlc] else acc)
    []

/-- std::string::find_first_of with a string argument: the index of the
first character of the haystack that equals ANY character of the
argument (a character-set search). -/
def findFirstOf (hay set : List Char) : Option Nat :=
  hay.findIdx? (fun c => set.contains c)

/-- The stored member name derived by archive::create (rld-files.cpp
lines 786-801): an overlong basename becomes '/' followed by the decimal
rendering of extended_file_names.find_first_of(oname + newline); when the
search fails the source throws (extended file name not found). -/
def storedName (ext : List Char) (oname : List Char) : Except Unit (List Char) :=
  if oname.length > rld_archive_fname_size then
    match findFirstOf ext (oname ++ [nlc]) with
    | none => .error ()
    | some pos => .ok ('/' :: (Nat.repr pos).data)
  else .ok oname

/-- Modelled from the spec: the byte offset at which pat begins inside
hay, a substring search — claim C6's "decimal byte offset at which that
basename followed by a newline begins". -/
def subIndex (hay pat : List Char) : Option Nat :=
  (List.range (hay.length + 1)).find?
    (fun i => ((hay.drop i).take pat.length) == pat)

/-- Claim C6 is right about the intended format and the code is wrong:
archive::create derives the stored "/N" reference with
std::string::find_first_of (rld-files.cpp line 795), a character-set
search, where a substring find was intended.  With two overlong
basenames (17 letters a, then 17 letters b) the payload is
"aaaaaaaaaaaaaaaaa\n" ++ "bbbbbbbbbbbbbbbbb\n"; for the second member the
first character in the payload belonging to the set of its name's
characters plus newline is the newline at offset 17, so the code stores
"/17", while the basename followed by newline begins at offset 18.  The
repository's own round-trip property (spec section 8.3-8.4) is violated:
the table holds the name at 18, not 17. -/
theorem c6_extended_name_offset_bug :
    extendedFileNames [List.replicate 17 'a', List.replicate 17 'b'] =
      List.replicate 17 'a' ++ [nlc] ++ List.replicate 17 'b' ++ [nlc] ∧
    storedName (extendedFileNames [List.replicate 17 'a', List.replicate 17 'b'])
        (List.replicate 17 'b') = .ok ('/' :: [ '1', '7' ]) ∧
    subIndex (extendedFileNames [List.replicate 17 'a', List.replicate 17 'b'])
        (List.replicate 17 'b' ++ [nlc]) = some 18 ∧
    (17 : Nat) ≠ 18 := by
  refine ⟨by decide, rfl, by decide, by decide⟩

/-! ## rld::files::archive::add_object  (rld-files.cpp lines 700-715) -/

/-- The member-name scan of archive::add_object (rld-files.cpp lines
703-708): starting at the header's first byte, take bytes until a NUL
(0) or a '/' (47) is met.  The source has no bound at the 16-byte name
field, so the scan can run past it; mem is the header buffer together
with whatever follows it in memory. -/
def add_object_name (mem : List Nat) : List Nat :=
  mem.takeWhile (fun b => !(b == 0 || b == 47))

/-- A 60-byte ar member header for a file called foo.o in the encoding
archive::write_header emits (space padding, no '/' terminator): name
field "foo.o" + 11 spaces, mtime "0", uid "0", gid "0", mode "666",
size "4", magic 0x60 0x0a.  No byte of it is NUL or '/'. -/
def hdrFooO : List Nat :=
  [102, 111, 111, 46, 111] ++ List.replicate 11 32
    ++ [48] ++ List.replicate 11 32
    ++ [48] ++ List.replicate 5 32
    ++ [48] ++ List.replicate 5 32
    ++ [54, 54, 54] ++ List.replicate 5 32
    ++ [52] ++ List.replicate 9 32
    ++ [96, 10]

/-- Claim C9 counterexample: a header whose name field does not begin
with '/' and carries no '/' or NUL anywhere (exactly what
archive::create itself writes for short names) makes the add_object scan
consume all 60 header bytes — the registered name is not limited to the
first 16 bytes of the header. -/
theorem c9_short_name_cex :
    hdrFooO.length = 60 ∧
    hdrFooO.head? = some 102 ∧
    (102 : Nat) ≠ 47 ∧
    add_object_name hdrFooO = hdrFooO ∧
    ¬ ((add_object_name hdrFooO).length ≤ 16) := by
  refine ⟨by decide, by decide, by decide, by decide, by decide⟩

theorem takeWhile_confined {α : Type} (p : α → Bool) :
    ∀ (l : List α) (n : Nat), ((l.take n).any fun a => !p a) →
    l.takeWhile p = (l.take n).takeWhile p ∧ (l.takeWhile p).length < n := by
  intro l
  induction l with
  | nil =>
    intro n h
    simp at h
  | cons a t ih =>
    intro n h
    cases n with
    | zero => simp at h
    | succ k =>
      by_cases hp : p a
      · rw [List.take_succ_cons] at h
        rw [List.any_cons] at h
        have ht : (t.take k).any (fun a => !p a) := by
          rcases Bool.or_eq_true_iff.mp h with h1 | h1
          · rw [hp] at h1
            simp at h1
          · exact h1
        have := ih k ht
        constructor
        · rw [List.take_succ_cons, List.takeWhile_cons, List.takeWhile_cons,
            if_pos hp, if_pos hp, this.1]
        · rw [List.takeWhile_cons, if_pos hp]
          simpa using this.2
      · constructor
        · rw [List.take_succ_cons, List.takeWhile_cons, List.takeWhile_cons,
            if_neg hp, if_neg hp]
        · rw [List.takeWhile_cons, if_neg hp]
          simp

/-- Claim C9 (amended): the add_object scan takes the header bytes up to
the first '/' OR NUL; this name stays within the 16-byte name field
PROVIDED such a terminator occurs among the first 16 bytes (the scan has
no bound of its own, rld-files.cpp lines 704-705, and runs past the name
field otherwise). -/
theorem c9_short_name_amended (mem : List Nat)
    (hterm : (mem.take 16).any fun b => b == 0 || b == 47) :
    add_object_name mem =
      (mem.take 16).takeWhile (fun b => !(b == 0 || b == 47)) ∧
    (add_object_name mem).length < 16 := by
  have h : (mem.take 16).any (fun b => !(!(b == 0 || b == 47))) := by
    simpa using hterm
  exact takeWhile_confined (fun b => !(b == 0 || b == 47)) mem 16 h

/-- Concrete instantiation of the amended claim C9: a header whose name
field is "foo.o/" terminated in GNU style keeps the scan inside the name
field. -/
theorem c9_short_name_witness :
    add_object_name ([102, 111, 111, 46, 111, 47] ++ List.replicate 54 32) =
      (([102, 111, 111, 46, 111, 47] ++ List.replicate 54 32).take 16).takeWhile
        (fun b => !(b == 0 || b == 47)) ∧
    (add_object_name
      ([102, 111, 111, 46, 111, 47] ++ List.replicate 54 32)).length < 16 :=
  c9_short_name_amended ([102, 111, 111, 46, 111, 47] ++ List.replicate 54 32)
    (by decide)

/-! ## rld::rap::image layout and write  (rld-rap.cpp lines 466-680) -/

/-- ELF symbol type STT_OBJECT. -/
def STT_OBJECT : Nat := 1

/-- ELF symbol type STT_FUNC. -/
def STT_FUNC : Nat := 2

/-- ELF symbol binding STB_GLOBAL. -/
def STB_GLOBAL : Nat := 1

/-- ELF symbol binding STB_WEAK. -/
def STB_WEAK : Nat := 2

/-- An ELF external symbol as image::layout consumes it: name, value and
st_info byte (type in the low nibble, binding in the high nibble), plus
the RAP group index that object::find resolves the symbol's section index
to (the find walk over the object's section lists, rld-rap.cpp lines
433-464, is taken as resolved input here). -/
structure ESym where
  name : List Char
  value : Nat
  info : Nat
  group : Nat
deriving Repr, DecidableEq

/-- symbols::symbol::type: ELF32_ST_TYPE of the st_info byte. -/
def symType (s : ESym) : Nat := s.info % 16

/-- symbols::symbol::binding: ELF32_ST_BIND of the st_info byte. -/
def symBinding (s : ESym) : Nat := s.info / 16

/-- The acceptance test of image::layout (rld-rap.cpp lines 528-530):
type OBJECT or FUNC, binding GLOBAL or WEAK. -/
def acceptSym (s : ESym) : Bool :=
  (symType s == STT_OBJECT || symType s == STT_FUNC) &&
  (symBinding s == STB_GLOBAL || symBinding s == STB_WEAK)

/-- rld::rap::external (rld-rap.cpp lines 93-118): one 12-byte RAP
symbol record (string-table index, section group, value, st_info). -/
structure ExternalRec where
  name : Nat
  sec : Nat
  value : Nat
  data : Nat
deriving Repr, DecidableEq

/-- external::rap_size: three uint32 words, 12 bytes. -/
def external_rap_size : Nat := 12

/-- The per-object symbol collection loop of image::layout (rld-rap.cpp
lines 519-541), starting from string table stab: every accepted symbol
pushes an external whose name index is the current table size + 2 (cast
to uint32), adds external::rap_size to symtab_size, and appends the
symbol name plus a NUL to the table. -/
def procSyms : List ESym → List Char → List ExternalRec × Nat × List Char
  | [], stab => ([], 0, stab)
  | s :: rest, stab =>
    if acceptSym s then
      let r := procSyms rest (stab ++ s.name ++ [nulc])
      (({ name := (stab.length + 2) % w32, sec := s.group,
          value := s.value, data := s.info } : ExternalRec) :: r.1,
       r.2.1 + external_rap_size, r.2.2)
    else procSyms rest stab

/-- The externals image::layout collects for one object's symbols. -/
def externsOfSyms (syms : List ESym) : List ExternalRec :=
  (procSyms syms []).1

/-- The string-table bytes contributed by one object's symbols: each
accepted symbol's name followed by a NUL, in order. -/
def strOfSyms (syms : List ESym) : List Char :=
  ((syms.filter acceptSym).map (fun s => s.name ++ [nulc])).flatten

/-- The per-object input to image::layout: the six per-object group
records and per-group contributing ELF file sections (offset, size
pairs) built by the rap::object constructor (rld-rap.cpp lines 326-409),
the object's external symbols, and its relocation total. -/
structure RapObj where
  text : SectionRec
  const_ : SectionRec
  ctor : SectionRec
  dtor : SectionRec
  data : SectionRec
  bss : SectionRec
  textSecs : List (Nat × Nat)
  constSecs : List (Nat × Nat)
  ctorSecs : List (Nat × Nat)
  dtorSecs : List (Nat × Nat)
  dataSecs : List (Nat × Nat)
  syms : List ESym
  relocs_size : Nat
deriving Repr, DecidableEq

/-- The state of rld::rap::image (rld-rap.cpp lines 207-215). -/
structure ImageLayout where
  text : SectionRec
  const_ : SectionRec
  ctor : SectionRec
  dtor : SectionRec
  data : SectionRec
  bss : SectionRec
  externs : List ExternalRec
  symtab_size : Nat
  strtab : List Char
  relocs_size : Nat
deriving Repr, DecidableEq

/-- image::image plus the zeroing at the head of layout (rld-rap.cpp
lines 466-475 and 496-501). -/
def layoutInit : ImageLayout :=
  { text := zeroSec ".text", const_ := zeroSec ".const",
    ctor := zeroSec ".ctor", dtor := zeroSec ".dtor",
    data := zeroSec ".data", bss := zeroSec ".bss",
    externs := [], symtab_size := 0, strtab := [], relocs_size := 0 }

/-- One iteration of the per-object loop of image::layout (rld-rap.cpp
lines 503-544): fold the six group records, reset symtab_size and the
string table (lines 516-517 sit INSIDE the loop), collect this object's
accepted symbols appending to the externals list, and accumulate
relocs_size. -/
def layoutObj (st : ImageLayout) (o : RapObj) : Except SecErr ImageLayout :=
  match secAdd st.text o.text with
  | .error e => .error e
  | .ok t =>
    match secAdd st.const_ o.const_ with
    | .error e => .error e
    | .ok c =>
      match secAdd st.ctor o.ctor with
      | .error e => .error e
      | .ok ct =>
        match secAdd st.dtor o.dtor with
        | .error e => .error e
        | .ok dt =>
          match secAdd st.data o.data with
          | .error e => .error e
          | .ok d =>
            match secAdd st.bss o.bss with
            | .error e => .error e
            | .ok b =>
              let r := procSyms o.syms []
              .ok { text := t, const_ := c, ctor := ct, dtor := dt,
                    data := d, bss := b,
                    externs := st.externs ++ r.1, symtab_size := r.2.1,
                    strtab := r.2.2,
                    relocs_size := (st.relocs_size + o.relocs_size) % w32 }

/-- rld::rap::image::layout (rld-rap.cpp lines 477-563). -/
def image_layout (objs : List RapObj) : Except SecErr ImageLayout :=
  List.foldlM layoutObj layoutInit objs

/-- Items of the uncompressed RAP stream: 32-bit words, raw string
bytes, and section-body transfers (compressor.write (obj, offset, size),
rld-rap.cpp line 697). -/
inductive Item where
  | u32 (v : Nat)
  | blob (bytes : List Char)
  | copy (offset size : Nat)
deriving Repr, DecidableEq

/-- The body emission of one group over all objects (rld-rap.cpp lines
658-667 and 682-709): for each object in order, one transfer per
contributing file section. -/
def writeGroup (objs : List RapObj) (f : RapObj → List (Nat × Nat)) :
    List Item :=
  (objs.map (fun o => (f o).map (fun p => Item.copy p.1 p.2))).flatten

/-- rld::rap::image::write (rld-rap.cpp lines 620-680): machine, data
encoding and class words; the strtab size before and after appending the
init and fini names; symtab_size, final strtab size and a zero word; the
six group records; the five group bodies; the string table blob; then
the externals, each as (sec << 16) | data, name, value. -/
def image_write (st : ImageLayout) (machine datatype cls : Nat)
    (ini fin : List Char) (objs : List RapObj) : List Item :=
  let s0 := st.strtab
  let initOff := s0.length % w32
  let s1 := s0 ++ ini ++ [nulc]
  let finiOff := s1.length % w32
  let s2 := s1 ++ fin ++ [nulc]
  [Item.u32 machine, Item.u32 datatype, Item.u32 cls,
   Item.u32 initOff, Item.u32 finiOff,
   Item.u32 st.symtab_size, Item.u32 (s2.length % w32), Item.u32 0]
  ++ [Item.u32 st.text.size, Item.u32 st.text.align, Item.u32 st.text.offset,
      Item.u32 st.const_.size, Item.u32 st.const_.align, Item.u32 st.const_.offset,
      Item.u32 st.ctor.size, Item.u32 st.ctor.align, Item.u32 st.ctor.offset,
      Item.u32 st.dtor.size, Item.u32 st.dtor.align, Item.u32 st.dtor.offset,
      Item.u32 st.data.size, Item.u32 st.data.align, Item.u32 st.data.offset,
      Item.u32 st.bss.size, Item.u32 st.bss.align, Item.u32 st.bss.offset]
  ++ writeGroup objs RapObj.textSecs
  ++ writeGroup objs RapObj.constSecs
  ++ writeGroup objs RapObj.ctorSecs
  ++ writeGroup objs RapObj.dtorSecs
  ++ writeGroup objs RapObj.dataSecs
  ++ [Item.blob s2]
  ++ (st.externs.map (fun e =>
        [Item.u32 (((e.sec <<< 16) ||| e.data) % w32),
         Item.u32 e.name, Item.u32 e.value])).flatten

/-- The NUL-terminated string stored at offset i of a string table:
the bytes from i up to the first NUL. -/
def cstrAt (l : List Char) (i : Nat) : List Char :=
  (l.drop i).takeWhile (fun c => !(c == nulc))

theorem procSyms_spec : ∀ (syms : List ESym) (stab : List Char),
    (procSyms syms stab).2.2 = stab ++ strOfSyms syms ∧
    (procSyms syms stab).2.1 =
      external_rap_size * (syms.filter acceptSym).length ∧
    ∀ pr ∈ (procSyms syms stab).1.zip (syms.filter acceptSym),
      pr.1.sec = pr.2.group ∧ pr.1.value = pr.2.value ∧
      pr.1.data = pr.2.info ∧
      ∃ pLen r2, stab.length ≤ pLen ∧ pr.1.name = (pLen + 2) % w32 ∧
        (procSyms syms stab).2.2.drop pLen = pr.2.name ++ nulc :: r2 := by
  intro syms
  induction syms with
  | nil =>
    intro stab
    refine ⟨by simp [procSyms, strOfSyms], by simp [procSyms], ?_⟩
    intro pr hpr
    simp [procSyms] at hpr
  | cons s rest ih =>
    intro stab
    by_cases hs : acceptSym s
    · have hproc : procSyms (s :: rest) stab =
          (({ name := (stab.length + 2) % w32, sec := s.group,
              value := s.value, data := s.info } : ExternalRec) ::
            (procSyms rest (stab ++ s.name ++ [nulc])).1,
           (procSyms rest (stab ++ s.name ++ [nulc])).2.1 + external_rap_size,
           (procSyms rest (stab ++ s.name ++ [nulc])).2.2) := by
        simp [procSyms, hs]
      have hstr : strOfSyms (s :: rest) =
          (s.name ++ [nulc]) ++ strOfSyms rest := by
        simp [strOfSyms, List.filter_cons, hs]
      have hfil : (s :: rest).filter acceptSym =
          s :: rest.filter acceptSym := by
        simp [List.filter_cons, hs]
      obtain ⟨ih1, ih2, ih3⟩ := ih (stab ++ s.name ++ [nulc])
      refine ⟨?_, ?_, ?_⟩
      · rw [hproc]
        show (procSyms rest (stab ++ s.name ++ [nulc])).2.2 = _
        rw [ih1, hstr]
        simp [List.append_assoc]
      · rw [hproc]
        show (procSyms rest (stab ++ s.name ++ [nulc])).2.1 +
          external_rap_size = _
        rw [ih2, hfil]
        simp [List.length_cons]
        ring
      · intro pr hpr
        rw [hproc, hfil] at hpr
        rw [List.zip_cons_cons] at hpr
        rcases List.mem_cons.mp hpr with hh | hh
        · subst hh
          refine ⟨rfl, rfl, rfl, stab.length, strOfSyms rest, le_refl _,
            rfl, ?_⟩
          rw [hproc]
          show (procSyms rest (stab ++ s.name ++ [nulc])).2.2.drop
            stab.length = _
          rw [ih1]
          have : (stab ++ s.name ++ [nulc]) ++ strOfSyms rest =
              stab ++ (s.name ++ nulc :: strOfSyms rest) := by
            simp
          rw [this, List.drop_left]
        · obtain ⟨h1, h2, h3, pLen, r2, hge, hname, hdrop⟩ := ih3 pr hh
          refine ⟨h1, h2, h3, pLen, r2, ?_, hname, ?_⟩
          · have hle : stab.length ≤ (stab ++ s.name ++ [nulc]).length := by
              simp
            exact le_trans hle hge
          · rw [hproc]
            exact hdrop
    · have hproc : procSyms (s :: rest) stab = procSyms rest stab := by
        simp [procSyms, hs]
      have hstr : strOfSyms (s :: rest) = strOfSyms rest := by
        simp [strOfSyms, List.filter_cons, hs]
      have hfil : (s :: rest).filter acceptSym = rest.filter acceptSym := by
        simp [List.filter_cons, hs]
      obtain ⟨ih1, ih2, ih3⟩ := ih stab
      rw [hproc, hstr, hfil]
      exact ⟨ih1, ih2, ih3⟩

theorem layoutObj_ok_fields (st0 : ImageLayout) (o : RapObj)
    (st : ImageLayout) (h : layoutObj st0 o = .ok st) :
    st.externs = st0.externs ++ (procSyms o.syms []).1 ∧
    st.symtab_size = (procSyms o.syms []).2.1 ∧
    st.strtab = (procSyms o.syms []).2.2 := by
  unfold layoutObj at h
  cases h1 : secAdd st0.text o.text with
  | error e => rw [h1] at h; exact absurd h (by simp)
  | ok t =>
  rw [h1] at h
  cases h2 : secAdd st0.const_ o.const_ with
  | error e => rw [h2] at h; exact absurd h (by simp)
  | ok c =>
  rw [h2] at h
  cases h3 : secAdd st0.ctor o.ctor with
  | error e => rw [h3] at h; exact absurd h (by simp)
  | ok ct =>
  rw [h3] at h
  cases h4 : secAdd st0.dtor o.dtor with
  | error e => rw [h4] at h; exact absurd h (by simp)
  | ok dt =>
  rw [h4] at h
  cases h5 : secAdd st0.data o.data with
  | error e => rw [h5] at h; exact absurd h (by simp)
  | ok d =>
  rw [h5] at h
  cases h6 : secAdd st0.bss o.bss with
  | error e => rw [h6] at h; exact absurd h (by simp)
  | ok b =>
  rw [h6] at h
  simp only [Except.ok.injEq] at h
  subst h
  exact ⟨rfl, rfl, rfl⟩

theorem foldl_layout_externs : ∀ (objs : List RapObj)
    (st0 st : ImageLayout),
    List.foldlM layoutObj st0 objs = .ok st →
    st.externs =
      st0.externs ++ (objs.map (fun ob => externsOfSyms ob.syms)).flatten := by
  intro objs
  induction objs with
  | nil =>
    intro st0 st h
    have h' : st0 = st := by
      simpa [List.foldlM, pure, Except.pure] using h
    subst h'
    simp
  | cons o rest ih =>
    intro st0 st h
    rw [List.foldlM_cons] at h
    cases h1 : layoutObj st0 o with
    | error e =>
      rw [h1] at h
      exact absurd h (by simp [Bind.bind, Except.bind])
    | ok s1 =>
      rw [h1] at h
      have h2 : List.foldlM layoutObj s1 rest = .ok st := h
      have hext := (layoutObj_ok_fields st0 o s1 h1).1
      rw [ih s1 st h2, hext]
      simp [externsOfSyms, List.append_assoc]

theorem image_layout_split_last (objs : List RapObj) (o : RapObj)
    (st : ImageLayout) (h : image_layout (objs ++ [o]) = .ok st) :
    ∃ stp, image_layout objs = .ok stp ∧ layoutObj stp o = .ok st := by
  unfold image_layout at h ⊢
  rw [List.foldlM_append] at h
  cases hp : List.foldlM layoutObj layoutInit objs with
  | error e =>
    rw [hp] at h
    exact absurd h (by simp [Bind.bind, Except.bind])
  | ok stp =>
    rw [hp] at h
    have h2 : List.foldlM layoutObj stp [o] = .ok st := h
    rw [List.foldlM_cons] at h2
    cases hq : layoutObj stp o with
    | error e =>
      rw [hq] at h2
      exact absurd h2 (by simp [Bind.bind, Except.bind])
    | ok s1 =>
      rw [hq] at h2
      have h3 : List.foldlM layoutObj s1 [] = .ok st := h2
      have h4 : s1 = st := by
        simpa [List.foldlM, pure, Except.pure] using h3
      subst h4
      exact ⟨stp, rfl, hq⟩

theorem takeWhile_until_nul : ∀ (nm r : List Char),
    (∀ ch ∈ nm, ¬ ch = nulc) →
    (nm ++ nulc :: r).takeWhile (fun c => !(c == nulc)) = nm := by
  intro nm
  induction nm with
  | nil =>
    intro r _
    simp [List.takeWhile_cons]
  | cons a t ih =>
    intro r h
    have ha : ¬ a = nulc := h a (by simp)
    rw [List.cons_append, List.takeWhile_cons]
    simp only [ha, beq_iff_eq, if_pos, Bool.not_eq_true']
    rw [if_pos (by simpa using ha)]
    rw [ih r (fun ch hch => h ch (by simp [hch]))]

/-- Claim C3: the uncompressed stream produced by image::write opens with
exactly eight u32 words: ELF machine, data encoding, class, the offset of
the init name in the emitted strtab, the offset of the fini name, the
symtab_size, the final strtab size, and zero; the emitted strtab blob
carries init and fini NUL-terminated at those offsets. -/
theorem c3_header_first_eight (st : ImageLayout) (machine datatype cls : Nat)
    (ini fin : List Char) (objs : List RapObj)
    (hlen : (st.strtab ++ ini ++ [nulc] ++ fin ++ [nulc]).length < w32) :
    (image_write st machine datatype cls ini fin objs).take 8 =
      [Item.u32 machine, Item.u32 datatype, Item.u32 cls,
       Item.u32 st.strtab.length,
       Item.u32 (st.strtab.length + ini.length + 1),
       Item.u32 st.symtab_size,
       Item.u32 (st.strtab ++ ini ++ [nulc] ++ fin ++ [nulc]).length,
       Item.u32 0] ∧
    Item.blob (st.strtab ++ ini ++ [nulc] ++ fin ++ [nulc]) ∈
      image_write st machine datatype cls ini fin objs ∧
    ((st.strtab ++ ini ++ [nulc] ++ fin ++ [nulc]).drop st.strtab.length).take
      (ini.length + 1) = ini ++ [nulc] ∧
    ((st.strtab ++ ini ++ [nulc] ++ fin ++ [nulc]).drop
      (st.strtab.length + (ini.length + 1))).take (fin.length + 1) =
      fin ++ [nulc] := by
  have hfs : (st.strtab ++ ini ++ [nulc] ++ fin ++ [nulc]).length =
      st.strtab.length + ini.length + 1 + fin.length + 1 := by
    simp [List.length_append]
    omega
  have htake : ∀ (r : List Item) (a1 a2 a3 a4 a5 a6 a7 a8 : Item),
      ([a1, a2, a3, a4, a5, a6, a7, a8] ++ r).take 8 =
        [a1, a2, a3, a4, a5, a6, a7, a8] := by
    intro r a1 a2 a3 a4 a5 a6 a7 a8
    rfl
  have h0 : st.strtab.length % w32 = st.strtab.length := by
    apply Nat.mod_eq_of_lt
    omega
  have e5 : (st.strtab ++ (ini ++ [nulc])).length % w32 =
      st.strtab.length + ini.length + 1 := by
    have hl : (st.strtab ++ (ini ++ [nulc])).length =
        st.strtab.length + ini.length + 1 := by
      simp [List.length_append]
      omega
    rw [hl]
    apply Nat.mod_eq_of_lt
    omega
  have e7 : (st.strtab ++ (ini ++ ([nulc] ++ (fin ++ [nulc])))).length % w32 =
      (st.strtab ++ (ini ++ ([nulc] ++ (fin ++ [nulc])))).length := by
    apply Nat.mod_eq_of_lt
    have hl : (st.strtab ++ (ini ++ ([nulc] ++ (fin ++ [nulc])))).length =
        st.strtab.length + ini.length + 1 + fin.length + 1 := by
      simp [List.length_append]
      omega
    omega
  refine ⟨?_, ?_, ?_, ?_⟩
  · simp only [image_write, List.append_assoc]
    rw [htake, h0, e5, e7]
  · simp only [image_write, List.append_assoc]
    simp [List.mem_append]
  · simp only [List.append_assoc]
    rw [List.drop_left]
    rw [← List.append_assoc ini [nulc] (fin ++ [nulc])]
    rw [List.take_left' (show (ini ++ [nulc]).length = ini.length + 1 by simp)]
  · simp only [List.append_assoc]
    have hshape : st.strtab ++ (ini ++ ([nulc] ++ (fin ++ [nulc]))) =
        (st.strtab ++ (ini ++ [nulc])) ++ (fin ++ [nulc]) := by
      simp
    rw [hshape]
    rw [List.drop_left' (show (st.strtab ++ (ini ++ [nulc])).length =
      st.strtab.length + (ini.length + 1) by simp [List.length_append])]
    have hl : (fin ++ [nulc]).length = fin.length + 1 := by
      simp
    rw [← hl, List.take_length]

/-- Concrete instantiation of claim C3 with machine 40, encoding 1,
class 1, init name "i" and fini name "g" over an empty layout. -/
theorem c3_header_witness :
    (image_write layoutInit 40 1 1 [ 'i' ] [ 'g' ] []).take 8 =
      [Item.u32 40, Item.u32 1, Item.u32 1, Item.u32 0, Item.u32 2,
       Item.u32 0, Item.u32 4, Item.u32 0] ∧
    Item.blob [ 'i', nulc, 'g', nulc ] ∈
      image_write layoutInit 40 1 1 [ 'i' ] [ 'g' ] [] ∧
    (([ 'i', nulc, 'g', nulc ] : List Char).drop 0).take 2 = [ 'i', nulc ] ∧
    (([ 'i', nulc, 'g', nulc ] : List Char).drop 2).take 2 = [ 'g', nulc ] := by
  have h := c3_header_first_eight layoutInit 40 1 1 [ 'i' ] [ 'g' ] []
    (by decide)
  exact ⟨h.1, h.2.1, h.2.2.1, h.2.2.2⟩

/-- A RAP object with empty section groups and one external symbol foo
with st_info 0x12 (binding STB_GLOBAL, type STT_FUNC), resolved to
section group 0. -/
def objFoo : RapObj :=
  { text := zeroSec ".text", const_ := zeroSec ".const",
    ctor := zeroSec ".ctor", dtor := zeroSec ".dtor",
    data := zeroSec ".data", bss := zeroSec ".bss",
    textSecs := [], constSecs := [], ctorSecs := [], dtorSecs := [],
    dataSecs := [],
    syms := [ { name := [ 'f', 'o', 'o' ], value := 0, info := 18,
                group := 0 } ],
    relocs_size := 0 }

/-- The same object with no symbols at all. -/
def objNoSyms : RapObj := { objFoo with syms := [] }

/-- The layout state the code produces for the single input [objFoo]. -/
def stFoo : ImageLayout :=
  { text := zeroSec ".text", const_ := zeroSec ".const",
    ctor := zeroSec ".ctor", dtor := zeroSec ".dtor",
    data := zeroSec ".data", bss := zeroSec ".bss",
    externs := [ { name := 2, sec := 0, value := 0, data := 18 } ],
    symtab_size := 12, strtab := [ 'f', 'o', 'o', nulc ],
    relocs_size := 0 }

/-- Claim C2 is right about the intended totals and the code is wrong:
image::layout resets symtab_size and clears the string table at the top
of the per-object loop (rld-rap.cpp lines 516-517 sit inside the loop),
so after layout they describe only the LAST object, while the externals
accumulate over all objects and image::write emits all of them at 12
bytes each — the emitted header contradicts the stream format (spec
section 6.2: symtab_size / 12 externals follow).  On [objFoo, objNoSyms]
the claim requires symtab_size = 12 and strtab "foo NUL": the code
leaves 0 and the empty table yet still records one external. -/
theorem c2_layout_reset_eval :
    image_layout [objFoo, objNoSyms] =
      .ok { text := zeroSec ".text", const_ := zeroSec ".const",
            ctor := zeroSec ".ctor", dtor := zeroSec ".dtor",
            data := zeroSec ".data", bss := zeroSec ".bss",
            externs := [ { name := 2, sec := 0, value := 0, data := 18 } ],
            symtab_size := 0, strtab := [], relocs_size := 0 } ∧
    external_rap_size *
      ((objFoo.syms.filter acceptSym).length +
        (objNoSyms.syms.filter acceptSym).length) = 12 ∧
    strOfSyms objFoo.syms ++ strOfSyms objNoSyms.syms =
      [ 'f', 'o', 'o', nulc ] ∧
    (0 : Nat) ≠ 12 ∧
    ([] : List Char) ≠ [ 'f', 'o', 'o', nulc ] := by
  refine ⟨rfl, by decide, by decide, by decide, by decide⟩

/-- Claim C1 counterexample: for the single input [objFoo] the emitted
strtab blob is "foo NUL i NUL g NUL" with foo at offset 0, but the
external records name_off = strtab-size-at-push + 2 (rld-rap.cpp line
532), so name_off is 2 and the NUL-terminated string found there is "o",
not "foo". -/
theorem c1_nameoff_cex :
    image_layout [objFoo] = .ok stFoo ∧
    stFoo.externs = [ { name := 2, sec := 0, value := 0, data := 18 } ] ∧
    Item.blob [ 'f', 'o', 'o', nulc, 'i', nulc, 'g', nulc ] ∈
      image_write stFoo 40 1 1 [ 'i' ] [ 'g' ] [objFoo] ∧
    cstrAt [ 'f', 'o', 'o', nulc, 'i', nulc, 'g', nulc ] 2 = [ 'o' ] ∧
    ([ 'o' ] : List Char) ≠ [ 'f', 'o', 'o' ] := by
  refine ⟨rfl, rfl, by decide, by decide, by decide⟩

/-- Claim C1 (amended): only symbols whose ELF type is OBJECT or FUNC and
binding GLOBAL or WEAK appear as externals — the externals list is
exactly the concatenation of each object's accepted-symbol records in
input order; but the string table is cleared per object, so only for the
LAST object's externals does the emitted strtab hold the names, and
name_off is 2 PLUS the offset of the symbol's NUL-terminated name: the
name is found at name_off - 2. -/
theorem c1_externs_filter_nameoff (objs : List RapObj) (o : RapObj)
    (st : ImageLayout) (ini fin : List Char)
    (h : image_layout (objs ++ [o]) = .ok st)
    (hnul : ∀ s ∈ o.syms, ∀ ch ∈ s.name, ¬ ch = nulc)
    (hsmall : st.strtab.length + 2 < w32) :
    st.externs =
      ((objs ++ [o]).map (fun ob => externsOfSyms ob.syms)).flatten ∧
    st.strtab = strOfSyms o.syms ∧
    st.symtab_size = external_rap_size * (o.syms.filter acceptSym).length ∧
    ∀ pr ∈ (externsOfSyms o.syms).zip (o.syms.filter acceptSym),
      pr.1.sec = pr.2.group ∧ pr.1.value = pr.2.value ∧
      pr.1.data = pr.2.info ∧ 2 ≤ pr.1.name ∧
      cstrAt (st.strtab ++ ini ++ [nulc] ++ fin ++ [nulc])
        (pr.1.name - 2) = pr.2.name := by
  obtain ⟨stp, hp, hq⟩ := image_layout_split_last objs o st h
  obtain ⟨hext, hsym, hstr⟩ := layoutObj_ok_fields stp o st hq
  obtain ⟨ps1, ps2, ps3⟩ := procSyms_spec o.syms []
  refine ⟨?_, ?_, ?_, ?_⟩
  · have hall := foldl_layout_externs (objs ++ [o]) layoutInit st h
    rw [hall]
    simp [layoutInit]
  · rw [hstr, ps1]
    simp
  · rw [hsym, ps2]
  · intro pr hpr
    obtain ⟨e1, s1⟩ := pr
    dsimp only
    obtain ⟨ha, hb, hc, pLen, r2, hge, hname, hdrop⟩ := ps3 (e1, s1) hpr
    have hdrop' : st.strtab.drop pLen = s1.name ++ nulc :: r2 := by
      rw [hstr]
      exact hdrop
    have hplen : pLen < st.strtab.length := by
      by_contra hcon
      push_neg at hcon
      have hnil : st.strtab.drop pLen = [] := List.drop_eq_nil_of_le hcon
      rw [hnil] at hdrop'
      exact absurd hdrop'.symm (by simp)
    have hmod : e1.name = pLen + 2 := by
      rw [hname]
      apply Nat.mod_eq_of_lt
      omega
    refine ⟨ha, hb, hc, by omega, ?_⟩
    have hsub : e1.name - 2 = pLen := by omega
    rw [hsub]
    unfold cstrAt
    rw [show st.strtab ++ ini ++ [nulc] ++ fin ++ [nulc] =
      st.strtab ++ (ini ++ ([nulc] ++ (fin ++ [nulc]))) from by simp]
    rw [List.drop_append_eq_append_drop]
    rw [show pLen - st.strtab.length = 0 from by omega]
    rw [List.drop_zero, hdrop']
    rw [show (s1.name ++ nulc :: r2) ++ (ini ++ ([nulc] ++ (fin ++ [nulc]))) =
      s1.name ++ nulc :: (r2 ++ (ini ++ ([nulc] ++ (fin ++ [nulc]))))
      from by simp]
    apply takeWhile_until_nul
    have hmem : s1 ∈ o.syms :=
      List.mem_of_mem_filter (List.of_mem_zip hpr).2
    exact hnul s1 hmem

/-- Concrete instantiation of the amended claim C1 at the single input
[objFoo] with init name "i" and fini name "g". -/
theorem c1_externs_witness :
    stFoo.externs =
      ((([] : List RapObj) ++ [objFoo]).map
        (fun ob => externsOfSyms ob.syms)).flatten ∧
    stFoo.strtab = strOfSyms objFoo.syms ∧
    stFoo.symtab_size =
      external_rap_size * (objFoo.syms.filter acceptSym).length ∧
    ∀ pr ∈ (externsOfSyms objFoo.syms).zip (objFoo.syms.filter acceptSym),
      pr.1.sec = pr.2.group ∧ pr.1.value = pr.2.value ∧
      pr.1.data = pr.2.info ∧ 2 ≤ pr.1.name ∧
      cstrAt (stFoo.strtab ++ [ 'i' ] ++ [nulc] ++ [ 'g' ] ++ [nulc])
        (pr.1.name - 2) = pr.2.name :=
  c1_externs_filter_nameoff [] objFoo stFoo [ 'i' ] [ 'g' ] rfl
    (by decide) (by decide)
